import Mathlib

/-!
Verification development for the `agp-cli` tool.

The repository is a TypeScript CLI that bootstraps and maintains a `.agp`
"knowledge directory" as a Git submodule.  The definitions below are shallow
embeddings of the functions in `src/utils/agp-init.ts`, `src/utils/agp-start.ts`
and the template/link utilities: pure data transformations become Lean
functions, filesystem and Git side effects become explicit state passing or
event traces, and outcomes of external commands (network, Git, interactive
prompts) become parameters the theorems quantify over.
-/

namespace AgpCli

/-! ## File-system model for the merge-resolution copy step

`mergeTemplateWithExisting` (agp-init.ts, lines 385-419) downloads the template
into a temporary side directory and then loops over the template's top-level
entries, copying an entry into the target directory only when no entry of that
name exists there, except `instructions.md` which is always copied.  The target
directory is modelled as a partial map from entry names to contents; the
template as its (finite) list of `(name, contents)` entries in `readdir` order.
-/

/-- One iteration of the copy loop of `mergeTemplateWithExisting`: the template
entry `p` is copied into the target `tgt` when the target has no entry of that
name (`fs.pathExists` is false) or when the entry is `instructions.md`;
otherwise the existing entry is kept. -/
def mergeStep (tgt : String → Option String) (p : String × String) :
    String → Option String :=
  if (tgt p.1).isNone || p.1 == "instructions.md" then
    fun n => if n = p.1 then some p.2 else tgt n
  else
    tgt

/-- The copy loop of `mergeTemplateWithExisting` (agp-init.ts, lines 396-410):
fold `mergeStep` over the template's top-level entries, starting from the
pre-existing target directory.  The temporary download directory is created
before and removed after the loop, so only the copy decisions are modelled. -/
def mergeTemplateWithExisting (template : List (String × String))
    (tgt : String → Option String) : String → Option String :=
  template.foldl mergeStep tgt

/-- The contents associated with the last template entry named `n`
(JavaScript's loop overwrites earlier copies, so the last occurrence wins). -/
def lastAssoc : List (String × String) → String → Option String
  | [], _ => none
  | p :: rest, n =>
    match lastAssoc rest n with
    | some c => some c
    | none => if p.1 = n then some p.2 else none

theorem lastAssoc_cons_none {q : String × String} {rest : List (String × String)}
    {n : String} (hrest : lastAssoc rest n = none) :
    lastAssoc (q :: rest) n = if q.1 = n then some q.2 else none := by
  simp [lastAssoc, hrest]

theorem lastAssoc_cons_some {q : String × String} {rest : List (String × String)}
    {n c : String} (hrest : lastAssoc rest n = some c) :
    lastAssoc (q :: rest) n = some c := by
  simp [lastAssoc, hrest]

/-- If `lastAssoc` finds nothing, the name is not a key of the list. -/
theorem lastAssoc_eq_none {l : List (String × String)} {n : String}
    (h : lastAssoc l n = none) : ∀ p ∈ l, p.1 ≠ n := by
  induction l with
  | nil => intro p hp; simp at hp
  | cons q rest ih =>
    intro p hp
    rcases hrest : lastAssoc rest n with _ | c
    · rw [lastAssoc_cons_none hrest] at h
      rcases List.mem_cons.mp hp with hpq | hpmem
      · subst hpq
        intro hpn
        rw [if_pos hpn] at h
        exact Option.noConfusion h
      · exact ih hrest p hpmem
    · rw [lastAssoc_cons_some hrest] at h
      exact Option.noConfusion h

theorem mergeTWE_nil (tgt : String → Option String) :
    mergeTemplateWithExisting [] tgt = tgt := rfl

theorem mergeTWE_cons (p : String × String) (rest : List (String × String))
    (tgt : String → Option String) :
    mergeTemplateWithExisting (p :: rest) tgt =
      mergeTemplateWithExisting rest (mergeStep tgt p) := rfl

/-- Copying the template entry `p` never changes an entry of a different
name. -/
theorem mergeStep_other (tgt : String → Option String) (p : String × String)
    (n : String) (h : p.1 ≠ n) : mergeStep tgt p n = tgt n := by
  unfold mergeStep
  split
  · simp only
    rw [if_neg (fun hn => h hn.symm)]
  · rfl

/-- When the loop's copy condition is false, the step leaves the whole target
unchanged. -/
theorem mergeStep_keep (tgt : String → Option String) (p : String × String)
    (h : ¬ ((tgt p.1).isNone || p.1 == "instructions.md") = true) :
    mergeStep tgt p = tgt := by
  unfold mergeStep
  rw [if_neg h]

/-- The `instructions.md` entry is always copied from the template. -/
theorem mergeStep_instructions (tgt : String → Option String)
    (p : String × String) (hp : p.1 = "instructions.md") :
    mergeStep tgt p "instructions.md" = some p.2 := by
  unfold mergeStep
  split
  · simp [hp]
  · rename_i hcond
    rw [hp] at hcond
    simp at hcond

/-- Entry names not mentioned by the template are never touched by the copy
loop. -/
theorem mergeTemplateWithExisting_not_key (template : List (String × String))
    (tgt : String → Option String) (n : String)
    (h : ∀ p ∈ template, p.1 ≠ n) :
    mergeTemplateWithExisting template tgt n = tgt n := by
  induction template generalizing tgt with
  | nil => rfl
  | cons p rest ih =>
    rw [mergeTWE_cons, ih _ (fun q hq => h q (List.mem_cons_of_mem p hq)),
      mergeStep_other tgt p n (h p (List.mem_cons_self p rest))]

/-- A pre-existing target entry other than `instructions.md` is never
overwritten by the copy loop. -/
theorem mergeTemplateWithExisting_preserves (template : List (String × String))
    (tgt : String → Option String) (n : String)
    (hn : n ≠ "instructions.md") (hs : (tgt n).isSome) :
    mergeTemplateWithExisting template tgt n = tgt n := by
  induction template generalizing tgt with
  | nil => rfl
  | cons p rest ih =>
    rw [mergeTWE_cons]
    by_cases hp : p.1 = n
    · have hcond : ¬ ((tgt p.1).isNone || p.1 == "instructions.md") = true := by
        rw [hp]
        simp only [Bool.or_eq_true, Option.isNone_iff_eq_none, beq_iff_eq]
        rintro (hnone | hinstr)
        · rw [hnone] at hs
          exact Bool.noConfusion hs
        · exact hn hinstr
      rw [mergeStep_keep tgt p hcond]
      exact ih tgt hs
    · have h1 : mergeStep tgt p n = tgt n := mergeStep_other tgt p n hp
      have h2 : ((mergeStep tgt p) n).isSome := by rw [h1]; exact hs
      rw [ih _ h2, h1]

/-- After the copy loop, `instructions.md` holds the template's version
whenever the template provides one (the last occurrence in `readdir` order). -/
theorem mergeTemplateWithExisting_instructions (template : List (String × String))
    (tgt : String → Option String) (c : String)
    (h : lastAssoc template "instructions.md" = some c) :
    mergeTemplateWithExisting template tgt "instructions.md" = some c := by
  induction template generalizing tgt with
  | nil => simp [lastAssoc] at h
  | cons p rest ih =>
    rw [mergeTWE_cons]
    rcases hrest : lastAssoc rest "instructions.md" with _ | c'
    · -- no occurrence in `rest`: the head must be the instructions entry
      rw [lastAssoc_cons_none hrest] at h
      have hnotkey := lastAssoc_eq_none hrest
      by_cases hp : p.1 = "instructions.md"
      · rw [if_pos hp] at h
        have hc : p.2 = c := Option.some_inj.mp h
        rw [mergeTemplateWithExisting_not_key rest _ _ hnotkey,
          mergeStep_instructions tgt p hp, hc]
      · rw [if_neg hp] at h
        exact absurd h (by simp)
    · -- a later occurrence exists: recurse
      rw [lastAssoc_cons_some hrest] at h
      have hcc : c' = c := Option.some_inj.mp h
      subst hcc
      exact ih (mergeStep tgt p) hrest

/-- Each copy step can only add or overwrite entries, never delete them. -/
theorem mergeStep_isSome (tgt : String → Option String) (p : String × String)
    (n : String) (hs : (tgt n).isSome) : ((mergeStep tgt p) n).isSome := by
  unfold mergeStep
  split
  · simp only
    by_cases hn : n = p.1
    · rw [if_pos hn]; rfl
    · rw [if_neg hn]; exact hs
  · exact hs

/-- The copy loop never deletes an entry. -/
theorem mergeTemplateWithExisting_isSome (template : List (String × String))
    (tgt : String → Option String) (n : String) (hs : (tgt n).isSome) :
    ((mergeTemplateWithExisting template tgt) n).isSome := by
  induction template generalizing tgt with
  | nil => exact hs
  | cons p rest ih =>
    rw [mergeTWE_cons]
    exact ih (mergeStep tgt p) (mergeStep_isSome tgt p n hs)

/-- Every template entry is present in the target after the copy loop: either
it already existed (and is kept) or it is copied from the template. -/
theorem mergeTemplateWithExisting_covers (template : List (String × String))
    (tgt : String → Option String) (p : String × String) (hp : p ∈ template) :
    ((mergeTemplateWithExisting template tgt) p.1).isSome := by
  induction template generalizing tgt with
  | nil => simp at hp
  | cons q rest ih =>
    rw [mergeTWE_cons]
    rcases List.mem_cons.mp hp with hpq | hpmem
    · subst hpq
      have hstep : ((mergeStep tgt p) p.1).isSome := by
        unfold mergeStep
        split
        · simp
        · rename_i hcond
          simp only [Bool.or_eq_true, not_or] at hcond
          rcases hcond with ⟨hnone, _⟩
          simpa [Option.isNone_iff_eq_none] using
            Option.ne_none_iff_isSome.mp (fun hh => hnone (by simp [hh]))
      exact mergeTemplateWithExisting_isSome rest (mergeStep tgt p) p.1 hstep
    · exact ih (mergeStep tgt q) hpmem

/-- The copy loop is idempotent: a second run over its own output changes
nothing. -/
theorem mergeTemplateWithExisting_idem (template : List (String × String))
    (tgt : String → Option String) (n : String) :
    mergeTemplateWithExisting template (mergeTemplateWithExisting template tgt) n
      = mergeTemplateWithExisting template tgt n := by
  by_cases hn : n = "instructions.md"
  · subst hn
    rcases hl : lastAssoc template "instructions.md" with _ | c
    · rw [mergeTemplateWithExisting_not_key template _ _ (lastAssoc_eq_none hl)]
    · rw [mergeTemplateWithExisting_instructions template
          (mergeTemplateWithExisting template tgt) c hl,
        mergeTemplateWithExisting_instructions template tgt c hl]
  · rcases hs : mergeTemplateWithExisting template tgt n with _ | v
    · have hkey : ∀ p ∈ template, p.1 ≠ n := by
        intro p hp hpn
        have hcov := mergeTemplateWithExisting_covers template tgt p hp
        rw [hpn, hs] at hcov
        exact Bool.noConfusion hcov
      rw [mergeTemplateWithExisting_not_key template _ _ hkey, hs]
    · have hsome : (mergeTemplateWithExisting template tgt n).isSome := by
        rw [hs]; rfl
      rw [mergeTemplateWithExisting_preserves template _ n hn hsome, hs]

/-- C1: In the merge resolution of bootstrap, the copy step copies each
top-level template entry into the target only if no entry of that name exists,
except `instructions.md` which is always taken from the template; consequently
pre-existing entries other than `instructions.md` are unchanged,
`instructions.md` ends up equal to the template's version, every template entry
is present afterwards, and running the copy step twice over the same
pre-existing target yields the same file set as running it once. -/
theorem C1_mergeResolution_copy (template : List (String × String))
    (tgt : String → Option String) :
    (∀ n, n ≠ "instructions.md" → (tgt n).isSome →
      mergeTemplateWithExisting template tgt n = tgt n)
    ∧ (∀ c, lastAssoc template "instructions.md" = some c →
      mergeTemplateWithExisting template tgt "instructions.md" = some c)
    ∧ (∀ p ∈ template, ((mergeTemplateWithExisting template tgt) p.1).isSome)
    ∧ (∀ n, mergeTemplateWithExisting template
        (mergeTemplateWithExisting template tgt) n
        = mergeTemplateWithExisting template tgt n) :=
  ⟨fun n hn hs => mergeTemplateWithExisting_preserves template tgt n hn hs,
   fun c hc => mergeTemplateWithExisting_instructions template tgt c hc,
   fun p hp => mergeTemplateWithExisting_covers template tgt p hp,
   fun n => mergeTemplateWithExisting_idem template tgt n⟩

/-- Witness for C1 at a concrete template and target: the pre-existing entry
`b` survives the copy step unchanged. -/
theorem C1_mergeResolution_copy_witness :
    mergeTemplateWithExisting [("a", "1"), ("instructions.md", "T")]
      (fun n => if n = "b" then some "2" else none) "b" = some "2" :=
  (C1_mergeResolution_copy [("a", "1"), ("instructions.md", "T")]
    (fun n => if n = "b" then some "2" else none)).1 "b" (by decide) (by simp)

/-! ## String helpers mirroring the JavaScript primitives

The TypeScript code uses `String.prototype.startsWith`, `includes`, `endsWith`,
`trim`, `slice` and `split`.  They are modelled over the character list of the
Lean string so that all definitions compute. -/

/-- JS `s.startsWith(pre)`. -/
def strStartsWith (s pre : String) : Bool := pre.data.isPrefixOf s.data

/-- Bool test that `l₁` occurs contiguously inside `l₂`. -/
def listInfix (l₁ : List Char) : List Char → Bool
  | [] => l₁.isEmpty
  | c :: cs => l₁.isPrefixOf (c :: cs) || listInfix l₁ cs

/-- JS `s.includes(sub)`. -/
def strIncludes (s sub : String) : Bool := listInfix sub.data s.data

/-- JS `s.endsWith(suf)`. -/
def strEndsWith (s suf : String) : Bool := suf.data.isSuffixOf s.data

/-- JS `s.trim()`: strip whitespace from both ends. -/
def jsTrim (s : String) : String :=
  ⟨((s.data.dropWhile Char.isWhitespace).reverse.dropWhile Char.isWhitespace).reverse⟩

/-- JS `s.slice(0, s.length - k)`: drop the last `k` characters. -/
def strDropRight (s : String) (k : Nat) : String :=
  ⟨s.data.take (s.data.length - k)⟩

/-- JS `s.split(sep)` restricted to a single-character separator, as used for
`status.trim().split('\n')`. -/
def strSplitChar (s : String) (c : Char) : List String :=
  (s.data.splitOn c).map List.asString

/-! ## Bootstrap dispatch: `initializeAgpDirectory` (agp-init.ts, lines 22-46)

The function first inspects the `.agp` directory.  If it exists and `--force`
was not given, it reads the directory: when every entry is hidden (starts with
`'.'`) it runs `pullSubmoduleContent`; otherwise it throws "already exists"
before performing any filesystem or Git mutation.  Only without an existing
directory (or with `--force`) does it proceed to the fresh-bootstrap path.
External effects are recorded as an action trace; outcomes of external commands
are parameters. -/

inductive InitAction
  | downloadTemplate
  | gitSubmoduleInit
  | gitSubmoduleUpdate
  | validateSetup
  | removeExisting
  | freshBootstrap
deriving DecidableEq, Repr

/-- The effects of `pullSubmoduleContent` (agp-init.ts, lines 421-436):
`git submodule init`, `git submodule update --remote`, then validation.  It
never downloads a template. -/
def pullSubmoduleContentActions : List InitAction :=
  [.gitSubmoduleInit, .gitSubmoduleUpdate, .validateSetup]

/-- The dispatch of `initializeAgpDirectory`: the returned list is the trace of
effectful actions performed, the `Except` the outcome.  `freshActions` stands
for the effect trace of the fresh-bootstrap path (template download, submodule
initialisation, ...) and `pullResult` for the outcome of the external Git and
validation steps of the pull path. -/
def initializeAgpDirectoryRun (force agpExists : Bool) (entries : List String)
    (freshActions : List InitAction) (pullResult : Except String Unit) :
    List InitAction × Except String Unit :=
  if agpExists && !force then
    if (entries.filter (fun f => !(strStartsWith f "."))).length = 0 then
      (pullSubmoduleContentActions, pullResult)
    else
      ([], .error "AGP directory already exists. Use --force to overwrite.")
  else
    (.freshBootstrap :: freshActions, .ok ())

/-- C2: running `init` without `--force` when `.agp` exists and contains at
least one non-hidden entry fails with the "already exists" error and performs
no effectful action at all — in particular no existing file is created,
modified, or deleted. -/
theorem C2_init_existing_nonempty_fails (entries : List String) (e : String)
    (freshActions : List InitAction) (pullResult : Except String Unit)
    (he : e ∈ entries) (hnh : strStartsWith e "." = false) :
    initializeAgpDirectoryRun false true entries freshActions pullResult =
      ([], .error "AGP directory already exists. Use --force to overwrite.") := by
  have hmem : e ∈ entries.filter (fun f => !(strStartsWith f ".")) :=
    List.mem_filter.mpr ⟨he, by simp [hnh]⟩
  have hlen : (entries.filter (fun f => !(strStartsWith f "."))).length ≠ 0 := by
    intro h0
    rw [List.length_eq_zero] at h0
    rw [h0] at hmem
    simp at hmem
  simp [initializeAgpDirectoryRun, hlen]

/-- Witness for C2: a directory containing the single visible entry
`instructions.md` makes `init` fail without mutating anything. -/
theorem C2_init_existing_nonempty_fails_witness :
    initializeAgpDirectoryRun false true ["instructions.md"] [] (.ok ()) =
      ([], .error "AGP directory already exists. Use --force to overwrite.") :=
  C2_init_existing_nonempty_fails ["instructions.md"] "instructions.md" [] (.ok ())
    (by decide) (by decide)

/-- C3: running `init` without `--force` when `.agp` exists and every entry is
hidden takes the pull-submodule-content path — submodule init, submodule
update, then validation — and that path never downloads the template. -/
theorem C3_init_hidden_entries_pull_path (entries : List String)
    (freshActions : List InitAction) (pullResult : Except String Unit)
    (h : ∀ e ∈ entries, strStartsWith e "." = true) :
    (initializeAgpDirectoryRun false true entries freshActions pullResult).1 =
      pullSubmoduleContentActions
    ∧ InitAction.downloadTemplate ∉ pullSubmoduleContentActions := by
  have hfilter : entries.filter (fun f => !(strStartsWith f ".")) = [] := by
    rw [List.filter_eq_nil_iff]
    intro a ha
    simp [h a ha]
  refine ⟨?_, by decide⟩
  simp [initializeAgpDirectoryRun, hfilter]

/-- Witness for C3: a freshly cloned parent repository where `.agp` holds only
the hidden `.git` file takes the pull path. -/
theorem C3_init_hidden_entries_pull_path_witness :
    (initializeAgpDirectoryRun false true [".git"] [] (.ok ())).1 =
      pullSubmoduleContentActions
    ∧ InitAction.downloadTemplate ∉ pullSubmoduleContentActions :=
  C3_init_hidden_entries_pull_path [".git"] [] (.ok ()) (by decide)

/-! ## The repository-linkage retry loop of `initializeSubmodule`
(agp-init.ts, lines 123-288)

The `while (!success && retryCount < maxRetries)` loop performs one linkage
attempt per iteration.  An attempt either returns the resolved URL (`success`),
ends in the user choosing "Cancel and use different repository" (`continue`
without touching the retry counter), or reaches the `catch` block with an
unrecoverable error, which increments `retryCount` and throws
"Failed to initialize submodule after maximum attempts" once the budget of
`maxRetries = 3` is exhausted. -/

inductive LinkOutcome
  | success (url : String)
  | cancel
  | failure
deriving DecidableEq, Repr

def maxRetries : Nat := 3

/-- The retry loop of `initializeSubmodule`.  `outcome i` is what the `i`-th
iteration of the loop body does; `fuel` bounds the number of modelled
iterations (the real loop can iterate arbitrarily long only while the user
keeps choosing `cancel`, which is outside this claim's scenario). -/
def submoduleLoopGo (outcome : Nat → LinkOutcome) :
    Nat → Nat → Nat → Except String String
  | _, _, 0 => .error "loop iteration budget exhausted"
  | iter, retryCount, fuel + 1 =>
    if retryCount < maxRetries then
      match outcome iter with
      | .success url => .ok url
      | .cancel => submoduleLoopGo outcome (iter + 1) retryCount fuel
      | .failure =>
        if retryCount + 1 < maxRetries then
          submoduleLoopGo outcome (iter + 1) (retryCount + 1) fuel
        else
          .error "Failed to initialize submodule after maximum attempts"
    else
      .error "Failed to initialize submodule after multiple attempts"

/-- The function `initializeSubmodule` enters the loop with `retryCount = 0`. -/
def initializeSubmoduleRun (outcome : Nat → LinkOutcome) (fuel : Nat) :
    Except String String :=
  submoduleLoopGo outcome 0 0 fuel

theorem submoduleLoopGo_succ (outcome : Nat → LinkOutcome)
    (iter retryCount fuel : Nat) :
    submoduleLoopGo outcome iter retryCount (fuel + 1) =
      if retryCount < maxRetries then
        match outcome iter with
        | .success url => .ok url
        | .cancel => submoduleLoopGo outcome (iter + 1) retryCount fuel
        | .failure =>
          if retryCount + 1 < maxRetries then
            submoduleLoopGo outcome (iter + 1) (retryCount + 1) fuel
          else
            .error "Failed to initialize submodule after maximum attempts"
      else
        .error "Failed to initialize submodule after multiple attempts" := rfl

/-- C4: the repository-linkage loop performs at most `maxRetries = 3`
budget-counted attempts: when every attempt fails with an unrecoverable error
the loop terminates after the third attempt with the fatal
"maximum attempts" error (whatever iteration budget remains), and once the
retry budget is exhausted the loop can never return success. -/
theorem C4_retry_budget (outcome : Nat → LinkOutcome) :
    ((∀ i, outcome i = .failure) → ∀ k,
      initializeSubmoduleRun outcome (k + 3) =
        .error "Failed to initialize submodule after maximum attempts")
    ∧ (∀ iter retryCount fuel url, maxRetries ≤ retryCount →
      submoduleLoopGo outcome iter retryCount fuel ≠ .ok url) := by
  constructor
  · intro h k
    unfold initializeSubmoduleRun
    rw [show k + 3 = (k + 2) + 1 from rfl, submoduleLoopGo_succ]
    simp only [h 0, maxRetries]
    rw [if_pos (by omega), if_pos (by omega)]
    rw [show k + 2 = (k + 1) + 1 from rfl, submoduleLoopGo_succ]
    simp only [h 1, maxRetries]
    rw [if_pos (by omega), if_pos (by omega)]
    rw [submoduleLoopGo_succ]
    simp only [h 2, maxRetries]
    rw [if_pos (by omega), if_neg (by omega)]
  · intro iter retryCount fuel url hr
    cases fuel with
    | zero => simp [submoduleLoopGo]
    | succ f =>
      rw [submoduleLoopGo_succ,
        if_neg (by simp only [maxRetries] at hr ⊢; omega)]
      simp

/-- Witness for C4: with every attempt failing, the loop run with exactly the
retry budget ends in the fatal error. -/
theorem C4_retry_budget_witness :
    initializeSubmoduleRun (fun _ => LinkOutcome.failure) 3 =
      .error "Failed to initialize submodule after maximum attempts" :=
  (C4_retry_budget (fun _ => LinkOutcome.failure)).1 (fun _ => rfl) 0

/-! ## Post-bootstrap validation: `validateAgpSetup`
(agp-init.ts, lines 335-383)

The function walks a fixed checklist of required files, then required
directories, throwing "Required file missing: <f>" / "Required directory
missing: <d>" for the first absent one, and finally runs
`git submodule status .agp`; a failing command or an empty (trimmed) status is
reported as "Git submodule validation failed". -/

def requiredFiles : List String :=
  ["instructions.md", ".config.json", ".gitignore", "architecture/overview.md",
   "patterns/overview.md", "architecture/feature-domains.md",
   "architecture/project-overview.md"]

def requiredDirs : List String := ["sessions", "architecture", "patterns", "project"]

/-- Validation, parameterised by which paths exist under `.agp`
(`pathExists`), whether the `git submodule status .agp` command succeeds
(`submoduleCmdOk`), and its printed output (`submoduleStatus`). -/
def validateAgpSetup (pathExists : String → Bool) (submoduleCmdOk : Bool)
    (submoduleStatus : String) : Except String Unit :=
  match requiredFiles.find? (fun f => !(pathExists f)) with
  | some f => .error ("Required file missing: " ++ f)
  | none =>
    match requiredDirs.find? (fun d => !(pathExists d)) with
    | some d => .error ("Required directory missing: " ++ d)
    | none =>
      if submoduleCmdOk && !(jsTrim submoduleStatus = "") then .ok ()
      else .error "Git submodule validation failed"

/-- When exactly one element satisfies the predicate, `find?` returns it. -/
theorem find?_eq_some_of_unique {α : Type} {p : α → Bool} {l : List α} {a : α}
    (ha : a ∈ l) (hp : p a = true) (ho : ∀ x ∈ l, p x = true → x = a) :
    l.find? p = some a := by
  induction l with
  | nil => simp at ha
  | cons b rest ih =>
    rcases hb : p b with _ | _
    · rw [List.find?_cons_of_neg _ (by simp [hb])]
      rcases List.mem_cons.mp ha with hab | ham
      · subst hab
        rw [hb] at hp
        exact absurd hp (by simp)
      · exact ih ham (fun x hx hpx => ho x (List.mem_cons_of_mem b hx) hpx)
    · have hba : b = a := ho b (List.mem_cons_self b rest) hb
      subst hba
      exact List.find?_cons_of_pos _ hb

theorem strData_append (s t : String) : (s ++ t).data = s.data ++ t.data := rfl

/-- An error message built by appending to a fixed prefix starts with that
prefix. -/
theorem strPrefix_append (s t : String) :
    s.data.isPrefixOf (s ++ t).data = true := by
  rw [strData_append, List.isPrefixOf_iff_prefix]
  exact List.prefix_append s.data t.data

/-- C5: whenever exactly one checklist item is missing, `validateAgpSetup`
fails with an error naming that item: a missing required file yields
"Required file missing: <f>", a missing required directory yields
"Required directory missing: <d>", and a missing submodule registration yields
"Git submodule validation failed", which differs from every file and directory
message. -/
theorem C5_validation_names_missing_item (pathExists : String → Bool)
    (submoduleCmdOk : Bool) (submoduleStatus : String) :
    (∀ f ∈ requiredFiles, pathExists f = false →
      (∀ x ∈ requiredFiles, x ≠ f → pathExists x = true) →
      validateAgpSetup pathExists submoduleCmdOk submoduleStatus =
        .error ("Required file missing: " ++ f))
    ∧ (∀ d ∈ requiredDirs, pathExists d = false →
      (∀ x ∈ requiredFiles, pathExists x = true) →
      (∀ x ∈ requiredDirs, x ≠ d → pathExists x = true) →
      validateAgpSetup pathExists submoduleCmdOk submoduleStatus =
        .error ("Required directory missing: " ++ d))
    ∧ ((∀ x ∈ requiredFiles, pathExists x = true) →
      (∀ x ∈ requiredDirs, pathExists x = true) →
      (submoduleCmdOk = false ∨ jsTrim submoduleStatus = "") →
      validateAgpSetup pathExists submoduleCmdOk submoduleStatus =
        .error "Git submodule validation failed")
    ∧ (∀ f, ("Required file missing: " ++ f) ≠ "Git submodule validation failed")
    ∧ (∀ d, ("Required directory missing: " ++ d) ≠ "Git submodule validation failed") := by
  refine ⟨?_, ?_, ?_, ?_, ?_⟩
  · intro f hf hmiss hothers
    have hfind : requiredFiles.find? (fun x => !(pathExists x)) = some f := by
      apply find?_eq_some_of_unique hf (by simp [hmiss])
      intro x hx hpx
      by_contra hxf
      have := hothers x hx hxf
      rw [this] at hpx
      simp at hpx
    simp [validateAgpSetup, hfind]
  · intro d hd hmiss hfiles hothers
    have hfindf : requiredFiles.find? (fun x => !(pathExists x)) = none := by
      rw [List.find?_eq_none]
      intro x hx
      simp [hfiles x hx]
    have hfindd : requiredDirs.find? (fun x => !(pathExists x)) = some d := by
      apply find?_eq_some_of_unique hd (by simp [hmiss])
      intro x hx hpx
      by_contra hxd
      have := hothers x hx hxd
      rw [this] at hpx
      simp at hpx
    simp [validateAgpSetup, hfindf, hfindd]
  · intro hfiles hdirs hsub
    have hfindf : requiredFiles.find? (fun x => !(pathExists x)) = none := by
      rw [List.find?_eq_none]
      intro x hx
      simp [hfiles x hx]
    have hfindd : requiredDirs.find? (fun x => !(pathExists x)) = none := by
      rw [List.find?_eq_none]
      intro x hx
      simp [hdirs x hx]
    rcases hsub with hcmd | hempty
    · simp [validateAgpSetup, hfindf, hfindd, hcmd]
    · simp [validateAgpSetup, hfindf, hfindd, hempty]
  · intro f heq
    have hpre := strPrefix_append "Required file missing: " f
    rw [heq] at hpre
    exact absurd hpre (by decide)
  · intro d heq
    have hpre := strPrefix_append "Required directory missing: " d
    rw [heq] at hpre
    exact absurd hpre (by decide)

/-- Witness for C5: when only `instructions.md` is missing, validation names
it. -/
theorem C5_validation_names_missing_item_witness :
    validateAgpSetup (fun x => x ≠ "instructions.md") true "160000 abc .agp" =
      .error ("Required file missing: " ++ "instructions.md") :=
  (C5_validation_names_missing_item (fun x => x ≠ "instructions.md") true
    "160000 abc .agp").1 "instructions.md" (by decide) (by decide)
    (fun x _ hx => by simp [hx])

/-! ## Commit-message generation: `generateCommitMessage`
(agp-start.ts push section, lines 181-196)

Changed paths (lines of `git status --porcelain`) are sorted into four buckets
by substring tests, the matched bucket names are joined with `", "`, and a
generic message is used when no bucket matches. -/

def generateCommitMessage (changedFiles : List String) : String :=
  let sessionFiles := changedFiles.filter (fun f => strIncludes f "sessions/")
  let knowledgeFiles := changedFiles.filter (fun f => strIncludes f "project/")
  let patternFiles := changedFiles.filter (fun f => strIncludes f "patterns/")
  let architectureFiles := changedFiles.filter (fun f => strIncludes f "architecture/")
  let parts :=
    (if sessionFiles.length > 0 then ["session progress"] else []) ++
    (if knowledgeFiles.length > 0 then ["project knowledge"] else []) ++
    (if patternFiles.length > 0 then ["patterns"] else []) ++
    (if architectureFiles.length > 0 then ["architecture"] else [])
  if parts.length = 0 then "docs: update AGP knowledge"
  else "docs: update " ++ String.intercalate ", " parts

/-- C6: with no explicit message, the changed-path list
`["M sessions/a/index.md", "M project/x.ts.md"]` yields a commit message
containing both "session progress" and "project knowledge" and neither
"patterns" nor "architecture"; and when no changed path matches any of the four
buckets the generic fallback message is produced. -/
theorem C6_commit_message (changedFiles : List String)
    (h : ∀ f ∈ changedFiles,
      strIncludes f "sessions/" = false ∧ strIncludes f "project/" = false ∧
      strIncludes f "patterns/" = false ∧ strIncludes f "architecture/" = false) :
    (strIncludes (generateCommitMessage
        ["M sessions/a/index.md", "M project/x.ts.md"]) "session progress" = true
      ∧ strIncludes (generateCommitMessage
        ["M sessions/a/index.md", "M project/x.ts.md"]) "project knowledge" = true
      ∧ strIncludes (generateCommitMessage
        ["M sessions/a/index.md", "M project/x.ts.md"]) "patterns" = false
      ∧ strIncludes (generateCommitMessage
        ["M sessions/a/index.md", "M project/x.ts.md"]) "architecture" = false)
    ∧ generateCommitMessage changedFiles = "docs: update AGP knowledge" := by
  constructor
  · exact ⟨by decide, by decide, by decide, by decide⟩
  · have h1 : changedFiles.filter (fun f => strIncludes f "sessions/") = [] :=
      List.filter_eq_nil_iff.mpr (fun a ha => by simp [(h a ha).1])
    have h2 : changedFiles.filter (fun f => strIncludes f "project/") = [] :=
      List.filter_eq_nil_iff.mpr (fun a ha => by simp [(h a ha).2.1])
    have h3 : changedFiles.filter (fun f => strIncludes f "patterns/") = [] :=
      List.filter_eq_nil_iff.mpr (fun a ha => by simp [(h a ha).2.2.1])
    have h4 : changedFiles.filter (fun f => strIncludes f "architecture/") = [] :=
      List.filter_eq_nil_iff.mpr (fun a ha => by simp [(h a ha).2.2.2])
    simp [generateCommitMessage, h1, h2, h3, h4]

/-- Witness for C6 at the empty changed-path list: the fallback message. -/
theorem C6_commit_message_witness :
    generateCommitMessage [] = "docs: update AGP knowledge" :=
  (C6_commit_message [] (by simp)).2

/-! ## Push: `pushAgpChanges` (agp-start.ts push section, lines 127-179)

After the existence checks, the function reads `git status --porcelain` inside
`.agp`; an empty (trimmed) status means "No changes to push" and an immediate
return with no further Git command.  Otherwise it stages, commits and pushes
the nested repository, stages the submodule pointer in the parent, and commits
the parent only when the parent's own status mentions `.agp`.  The trace lists
the state-mutating Git commands performed. -/

inductive GitCmd
  | agpAdd
  | agpCommit (msg : String)
  | agpPush
  | parentAdd
  | parentCommit (msg : String)
deriving DecidableEq

def pushAgpChangesRun (agpExists agpGitExists : Bool) (status : String)
    (message : Option String) (parentStatus : String) :
    List GitCmd × Except String Unit :=
  if !agpExists then
    ([], .error "AGP directory not found. Run \"agp init\" first.")
  else if !agpGitExists then
    ([], .error "AGP directory is not a git repository. Please check your setup.")
  else if jsTrim status = "" then
    ([], .ok ())
  else
    let changedFiles := strSplitChar (jsTrim status) '\n'
    let commitMessage :=
      match message with
      | some m => m
      | none => generateCommitMessage changedFiles
    ([.agpAdd, .agpCommit commitMessage, .agpPush, .parentAdd] ++
      (if strIncludes parentStatus ".agp" then
        [.parentCommit "chore: update AGP submodule pointer"] else []),
     .ok ())

/-- C7: when the short-status of the nested `.agp` repository is empty, `push`
is a no-op: it succeeds and performs zero state-mutating Git commands in either
repository. -/
theorem C7_push_clean_noop (status : String) (message : Option String)
    (parentStatus : String) (h : jsTrim status = "") :
    pushAgpChangesRun true true status message parentStatus = ([], .ok ()) := by
  simp [pushAgpChangesRun, h]

/-- Witness for C7: an all-whitespace porcelain status trims to empty and push
mutates nothing. -/
theorem C7_push_clean_noop_witness :
    pushAgpChangesRun true true "  \n" none "" = ([], .ok ()) :=
  C7_push_clean_noop "  \n" none "" (by decide)

/-! ## Session file creation: `createNewSessionFile`
(agp-start.ts, lines 85-110)

The function writes a fixed Markdown template with the user name interpolated
into the title and the current date and time interpolated into the
"Decisions Made" bullet.  The date stamp is `toISOString().split('T')[0]` and
the time stamp `toTimeString().split(' ')[0]`, both newline-free; the user name
comes from a single `readline` answer, also newline-free. -/

/-- The file content written by `createNewSessionFile`, with the interpolated
user name, date and time as parameters. -/
def createNewSessionFile (userName date time : String) : String :=
  "# " ++ userName ++ " - Current Session\n\n## Active Files\n(No active files yet)\n\n## In Progress\n- [ ] Welcome to AGP! Start by exploring the project structure\n\n## Blocked\n(No blocked tasks)\n\n## Next Up\n- [ ] Read .agp/architecture/overview.md to understand project structure\n- [ ] Review .agp/patterns/overview.md for implementation patterns\n\n## Decisions Made\n- " ++ date ++ " " ++ time ++ ": Started using AGP for project management\n\n## Notes & Context\n- First session created\n- Ready to begin development work with AI assistance\n"

/-- Concatenation of lines, every line terminated by a newline. -/
def joinLines : List (List Char) → List Char
  | [] => []
  | l :: ls => l ++ '\n' :: joinLines ls

/-- The session template, line by line. -/
def sessionLines (userName date time : String) : List (List Char) :=
  ["# ".data ++ userName.data ++ " - Current Session".data,
   [],
   "## Active Files".data,
   "(No active files yet)".data,
   [],
   "## In Progress".data,
   "- [ ] Welcome to AGP! Start by exploring the project structure".data,
   [],
   "## Blocked".data,
   "(No blocked tasks)".data,
   [],
   "## Next Up".data,
   "- [ ] Read .agp/architecture/overview.md to understand project structure".data,
   "- [ ] Review .agp/patterns/overview.md for implementation patterns".data,
   [],
   "## Decisions Made".data,
   "- ".data ++ date.data ++ " ".data ++ time.data ++ ": Started using AGP for project management".data,
   [],
   "## Notes & Context".data,
   "- First session created".data,
   "- Ready to begin development work with AI assistance".data]

/-- The Markdown section headings of a string: the lines starting with the
`"## "` marker, with the marker dropped. -/
def sectionHeadings (s : String) : List String :=
  ((s.data.splitOn '\n').filter (fun l => "## ".data.isPrefixOf l)).map
    (fun l => String.mk (l.drop 3))

set_option maxRecDepth 8192 in
theorem createNewSessionFile_data (userName date time : String) :
    (createNewSessionFile userName date time).data =
      joinLines (sessionLines userName date time) := by
  simp [createNewSessionFile, sessionLines, joinLines, strData_append,
    List.append_assoc]

/-- Splitting newline-terminated lines on the newline character recovers the
lines, plus the empty fragment after the final newline. -/
theorem splitOn_joinLines (lines : List (List Char))
    (h : ∀ l ∈ lines, ∀ c ∈ l, ¬ c = '\n') :
    (joinLines lines).splitOn '\n' = lines ++ [[]] := by
  induction lines with
  | nil => rfl
  | cons l ls ih =>
    show (l ++ '\n' :: joinLines ls).splitOnP (fun x => x == '\n') = (l :: ls) ++ [[]]
    rw [List.splitOnP_first (fun x => x == '\n') l
      (fun x hx => by simp [h l (List.mem_cons_self l ls) x hx]) '\n'
      (by simp) (joinLines ls)]
    have hih := ih (fun l' hl' => h l' (List.mem_cons_of_mem l hl'))
    show l :: (joinLines ls).splitOn '\n' = l :: (ls ++ [[]])
    rw [hih]

/-- A segment of one line is a segment of the joined lines. -/
theorem infix_joinLines {x l : List Char} {lines : List (List Char)}
    (hl : l ∈ lines) (hx : x <:+: l) : x <:+: joinLines lines := by
  induction lines with
  | nil => simp at hl
  | cons l0 ls ih =>
    rcases List.mem_cons.mp hl with rfl | hmem
    · exact hx.trans ((List.prefix_append l ('\n' :: joinLines ls)).isInfix)
    · have hsuf : joinLines ls <:+: joinLines (l0 :: ls) := by
        show joinLines ls <:+: l0 ++ '\n' :: joinLines ls
        exact ((List.suffix_cons '\n' (joinLines ls)).trans
          (List.suffix_append l0 ('\n' :: joinLines ls))).isInfix
      exact (ih hmem).trans hsuf

/-- C9 (amended): for a user name, date and time free of newlines, the session
file created by `start` for a new user has exactly six section headings —
Active Files, In Progress, Blocked, Next Up, Decisions Made, Notes & Context —
and its content contains the user name, the date and the time. -/
theorem C9_session_file_sections (userName date time : String)
    (hu : '\n' ∉ userName.data) (hd : '\n' ∉ date.data)
    (ht : '\n' ∉ time.data) :
    sectionHeadings (createNewSessionFile userName date time) =
      ["Active Files", "In Progress", "Blocked", "Next Up", "Decisions Made",
       "Notes & Context"]
    ∧ userName.data <:+: (createNewSessionFile userName date time).data
    ∧ date.data <:+: (createNewSessionFile userName date time).data
    ∧ time.data <:+: (createNewSessionFile userName date time).data := by
  have hlines : ∀ l ∈ sessionLines userName date time, ∀ c ∈ l, ¬ c = '\n' := by
    intro l hl
    simp only [sessionLines] at hl
    fin_cases hl
    all_goals try decide
    · intro c hc hc'
      subst hc'
      simp only [List.mem_append] at hc
      rcases hc with (h | h) | h
      · exact absurd h (by decide)
      · exact hu h
      · exact absurd h (by decide)
    · intro c hc hc'
      subst hc'
      simp only [List.mem_append] at hc
      rcases hc with (((h | h) | h) | h) | h
      · exact absurd h (by decide)
      · exact hd h
      · exact absurd h (by decide)
      · exact ht h
      · exact absurd h (by decide)
  refine ⟨?_, ?_, ?_, ?_⟩
  · unfold sectionHeadings
    rw [createNewSessionFile_data, splitOn_joinLines _ hlines]
    rfl
  · rw [createNewSessionFile_data]
    exact infix_joinLines (by simp [sessionLines])
      ⟨"# ".data, " - Current Session".data, rfl⟩
  · rw [createNewSessionFile_data]
    exact infix_joinLines (l := "- ".data ++ date.data ++ " ".data ++
        time.data ++ ": Started using AGP for project management".data)
      (by simp [sessionLines])
      ⟨"- ".data, " ".data ++ time.data ++
        ": Started using AGP for project management".data,
        by simp [List.append_assoc]⟩
  · rw [createNewSessionFile_data]
    exact infix_joinLines (l := "- ".data ++ date.data ++ " ".data ++
        time.data ++ ": Started using AGP for project management".data)
      (by simp [sessionLines])
      ⟨"- ".data ++ date.data ++ " ".data,
        ": Started using AGP for project management".data, rfl⟩

/-- Witness for C9 (amended) at user "alice". -/
theorem C9_session_file_sections_witness :
    sectionHeadings (createNewSessionFile "alice" "2026-10-11" "12:00:00") =
      ["Active Files", "In Progress", "Blocked", "Next Up", "Decisions Made",
       "Notes & Context"] :=
  (C9_session_file_sections "alice" "2026-10-11" "12:00:00" (by decide)
    (by decide) (by decide)).1

set_option maxRecDepth 8192 in
/-- Counterexample for C9 as stated: the session file for user "alice" has six
section headings, and the last one is "Notes & Context", so its heading list is
not the claimed five-element reading ending in "Notes". -/
theorem C9_session_headings_counterexample :
    sectionHeadings (createNewSessionFile "alice" "2026-10-11" "12:00:00") =
      ["Active Files", "In Progress", "Blocked", "Next Up", "Decisions Made",
       "Notes & Context"]
    ∧ sectionHeadings (createNewSessionFile "alice" "2026-10-11" "12:00:00") ≠
      ["Active Files", "In Progress", "Blocked", "Next Up", "Decisions Made",
       "Notes"]
    ∧ (sectionHeadings (createNewSessionFile "alice" "2026-10-11"
        "12:00:00")).length ≠ 5 := by
  refine ⟨by rfl, ?_, ?_⟩
  · intro h
    rw [show sectionHeadings (createNewSessionFile "alice" "2026-10-11"
      "12:00:00") = ["Active Files", "In Progress", "Blocked", "Next Up",
      "Decisions Made", "Notes & Context"] from rfl] at h
    exact absurd h (by decide)
  · intro h
    rw [show sectionHeadings (createNewSessionFile "alice" "2026-10-11"
      "12:00:00") = ["Active Files", "In Progress", "Blocked", "Next Up",
      "Decisions Made", "Notes & Context"] from rfl] at h
    exact absurd h (by decide)

/-! ## Template retrieval: `convertGitUrlToZip` and `downloadTemplate`
(template manager, src/unnamed/part_001, lines 76-133)

The template URL is normalized — a trailing `.git` is stripped and a
`git@github.com:` SSH prefix is rewritten to `https://github.com/` (JavaScript
`String.replace` replaces the first occurrence, which under the `startsWith`
guard is that prefix, of length 15) — and a URL that then does not contain
"github.com" is rejected before any network request. -/

/-- The URL normalization performed at the top of `convertGitUrlToZip`. -/
def normalizeGitUrl (gitUrl : String) : String :=
  let repoUrl := if strEndsWith gitUrl ".git" then strDropRight gitUrl 4 else gitUrl
  if strStartsWith repoUrl "git@github.com:" then
    "https://github.com/" ++ String.mk (repoUrl.data.drop 15)
  else
    repoUrl

def convertGitUrlToZip (gitUrl : String) : Except String String :=
  let repoUrl := normalizeGitUrl gitUrl
  if !(strIncludes repoUrl "github.com") then
    .error "Only GitHub repositories are supported"
  else
    .ok (repoUrl ++ "/archive/refs/heads/main.zip")

inductive DlAction
  | removeTarget
  | ensureTargetDir
  | httpGet (url : String)
  | extractZip
  | removeZip
  | removeTemplateFile (name : String)
deriving DecidableEq

/-- Trace semantics of `downloadTemplate`: an existing target directory is
removed first; an error raised by `convertGitUrlToZip` (or by the fetch or the
extraction, abstracted by `fetchResult`) is wrapped as
"Failed to download template: <cause>"; on success the `.github`, `README.md`
and `LICENSE` entries present in the extracted template are removed. -/
def downloadTemplateRun (templateUrl : String) (targetExists : Bool)
    (fetchResult : Except String Unit) (extractedHas : String → Bool) :
    List DlAction × Except String Unit :=
  let pre : List DlAction := if targetExists then [.removeTarget] else []
  match convertGitUrlToZip templateUrl with
  | .error e => (pre, .error ("Failed to download template: " ++ e))
  | .ok zipUrl =>
    match fetchResult with
    | .error e =>
      (pre ++ [.ensureTargetDir, .httpGet zipUrl],
       .error ("Failed to download template: " ++ e))
    | .ok () =>
      (pre ++ [.ensureTargetDir, .httpGet zipUrl, .extractZip, .removeZip] ++
        ([".github", "README.md", "LICENSE"].filter extractedHas).map
          DlAction.removeTemplateFile,
       .ok ())

/-- C10: a template URL that, after normalization, does not contain
"github.com" makes the download fail with the "Only GitHub repositories are
supported" error, and no HTTP request is made. -/
theorem C10_non_github_template_rejected (templateUrl : String)
    (targetExists : Bool) (fetchResult : Except String Unit)
    (extractedHas : String → Bool)
    (h : strIncludes (normalizeGitUrl templateUrl) "github.com" = false) :
    (downloadTemplateRun templateUrl targetExists fetchResult extractedHas).2 =
      .error ("Failed to download template: " ++
        "Only GitHub repositories are supported")
    ∧ ∀ z, DlAction.httpGet z ∉
      (downloadTemplateRun templateUrl targetExists fetchResult extractedHas).1 := by
  have hconv : convertGitUrlToZip templateUrl =
      .error "Only GitHub repositories are supported" := by
    simp [convertGitUrlToZip, h]
  constructor
  · simp [downloadTemplateRun, hconv]
  · intro z
    simp only [downloadTemplateRun, hconv]
    cases targetExists <;> simp

/-- Witness for C10: a GitLab URL is rejected before any network request. -/
theorem C10_non_github_template_rejected_witness :
    (downloadTemplateRun "https://gitlab.com/user/repo.git" true (.ok ())
      (fun _ => true)).2 =
      .error ("Failed to download template: " ++
        "Only GitHub repositories are supported") :=
  (C10_non_github_template_rejected "https://gitlab.com/user/repo.git" true
    (.ok ()) (fun _ => true) (by decide)).1

/-! ## Working-directory discipline (C8)

`initializeSubmodule` (agp-init.ts, lines 102-288), `pushAgpChanges`
(agp-start.ts push section, lines 127-179) and `linkAgpRepository`
(src/unnamed/part_001, lines 6-67) all mutate the process working directory
with `process.chdir`.  Each function captures `cwd` on entry; `pushAgpChanges`
and `linkAgpRepository` restore it in a `finally` block, and every path of the
retry loop of `initializeSubmodule` — including its `catch` block, whose first
statement is `process.chdir(cwd)` — ends back in `cwd`.  The models below
record the sequence of `process.chdir` targets of each possible execution path;
the final working directory is the last entry of that trace. -/

/-- The working directory after starting in `start` and performing the
`process.chdir` calls listed in `trace`, in order. -/
def finalWd (start : String) (trace : List String) : String :=
  trace.foldl (fun _ d => d) start

theorem finalWd_append (start : String) (t₁ t₂ : List String) :
    finalWd start (t₁ ++ t₂) = finalWd (finalWd start t₁) t₂ := by
  simp [finalWd, List.foldl_append]

inductive PushResolve
  | overwrite
  | merge
  | cancel
deriving DecidableEq

/-- Which external operations of one iteration of the `initializeSubmodule`
retry loop succeed, and which conflict resolution the user picks when the
initial push is rejected. -/
structure IterScenario where
  /-- the interactive URL prompt completes (line 144) -/
  promptOk : Bool
  /-- whether `git init` / `git add .` / `git commit` succeed (lines 167-169) -/
  initCommitOk : Bool
  /-- whether `git remote add origin <url>` succeeds (line 174) -/
  remoteAddOk : Bool
  /-- whether `git push -u origin main` succeeds (line 178) -/
  pushOk : Bool
  /-- the overwrite/merge/cancel prompt completes (line 186) -/
  choicePromptOk : Bool
  /-- the user's resolution choice -/
  resolve : PushResolve
  /-- merge path: removing `.agp`, cloning the remote and merging the template
  (lines 219-223, run from the parent directory) succeed -/
  mergeSetupOk : Bool
  /-- the chosen resolution's Git commands succeed (overwrite: pull/push or
  force push, lines 211-215; merge: `git add .`, line 227; cancel: removing and
  recreating `.agp`, lines 201-202) -/
  resolveOk : Bool
  /-- whether `git submodule add <url> .agp` in the parent succeeds (line 250) -/
  submoduleAddOk : Bool

/-- The `process.chdir` targets of one iteration of the retry loop, including
the `process.chdir(cwd)` that opens the `catch` block when the iteration body
throws. -/
def iterChdirs (cwd agp : String) (s : IterScenario) : List String :=
  if !s.promptOk then [cwd]
  else if !s.initCommitOk then [agp, cwd]
  else if !s.remoteAddOk then [agp, cwd]
  else
    let afterPush : List String × Bool :=
      if s.pushOk then ([agp], true)
      else if !s.choicePromptOk then ([agp, cwd, cwd], false)
      else
        match s.resolve with
        | .cancel =>
          if s.resolveOk then ([agp, cwd], false)
          else ([agp, cwd, cwd], false)
        | .overwrite => ([agp, cwd, agp, cwd], s.resolveOk)
        | .merge =>
          if !s.mergeSetupOk then ([agp, cwd, cwd], false)
          else ([agp, cwd, agp, cwd], s.resolveOk)
    if afterPush.2 then
      afterPush.1 ++ [cwd] ++ (if s.submoduleAddOk then [] else [cwd])
    else
      afterPush.1

/-- The `process.chdir` trace of a whole `initializeSubmodule` run, given the
scenarios of the successive loop iterations actually executed. -/
def submoduleChdirTrace (cwd agp : String) : List IterScenario → List String
  | [] => []
  | s :: rest => iterChdirs cwd agp s ++ submoduleChdirTrace cwd agp rest

/-- Every iteration of the retry loop ends back in the original directory. -/
theorem finalWd_iterChdirs (cwd agp start : String) (s : IterScenario) :
    finalWd start (iterChdirs cwd agp s) = cwd := by
  rcases s with ⟨p, i, r, pu, cp, res, ms, ro, sa⟩
  cases p <;> cases i <;> cases r <;> cases pu <;> cases cp <;> cases res <;>
    cases ms <;> cases ro <;> cases sa <;> simp [iterChdirs, finalWd]

/-- Stage of `pushAgpChanges` at which an external command throws (`stNone`:
no failure). -/
inductive PushStage
  | stStatus
  | stAdd
  | stCommit
  | stPush
  | stParentAdd
  | stParentStatus
  | stParentCommit
  | stNone
deriving DecidableEq

/-- The `process.chdir` targets of `pushAgpChanges` after the existence
checks: enter `.agp`; on the non-empty-status path come back to the parent for
the submodule-pointer update; the `finally` block always restores `cwd`, both
on the early no-changes return and on a thrown error. -/
def pushChdirs (cwd agp : String) (fail : PushStage) (emptyStatus : Bool) :
    List String :=
  (if fail = .stStatus then [agp]
   else if emptyStatus then [agp]
   else if fail = .stAdd ∨ fail = .stCommit ∨ fail = .stPush then [agp]
   else [agp, cwd]) ++ [cwd]

/-- Stage of `linkAgpRepository` at which an external command throws
(`lsNone`: no failure). -/
inductive LinkStage
  | lsStatus
  | lsUncommitted
  | lsRemoteAdd
  | lsPushChain
  | lsGitmodules
  | lsNone
deriving DecidableEq

/-- The `process.chdir` targets of `linkAgpRepository`: enter `.agp`, come
back to the parent for the `.gitmodules` update, and always restore `cwd` in
the `finally` block. -/
def linkChdirs (cwd agp : String) (fail : LinkStage) : List String :=
  (if fail = .lsStatus ∨ fail = .lsUncommitted ∨ fail = .lsRemoteAdd ∨
      fail = .lsPushChain then [agp]
   else [agp, cwd]) ++ [cwd]

/-- C8: for every execution path of the bootstrap submodule flow, of push and
of link — normal completion as well as a thrown error at any stage — the
process working directory at termination equals its value at the start. -/
theorem C8_working_directory_restored (cwd agp : String) :
    (∀ ss : List IterScenario,
      finalWd cwd (submoduleChdirTrace cwd agp ss) = cwd)
    ∧ (∀ (fail : PushStage) (emptyStatus : Bool),
      finalWd cwd (pushChdirs cwd agp fail emptyStatus) = cwd)
    ∧ (∀ fail : LinkStage, finalWd cwd (linkChdirs cwd agp fail) = cwd) := by
  refine ⟨?_, ?_, ?_⟩
  · intro ss
    induction ss with
    | nil => rfl
    | cons s rest ih =>
      show finalWd cwd (iterChdirs cwd agp s ++ submoduleChdirTrace cwd agp rest)
        = cwd
      rw [finalWd_append, finalWd_iterChdirs]
      exact ih
  · intro fail emptyStatus
    cases fail <;> cases emptyStatus <;> simp [pushChdirs, finalWd]
  · intro fail
    cases fail <;> simp [linkChdirs, finalWd]
